import Mathlib

set_option maxHeartbeats 1000000

open List

/-!
Shallow embedding of the `TodoList` store from `src/app.ts` of the
todo-list repository, together with proofs of the behavioural claims
about it.  The in-place mutation of the TypeScript class is modelled by
explicit state passing: every method takes the store and returns the new
store, and methods that `throw` return `Except String`.
-/

/-- A JavaScript `Date` value, modelled by its epoch-milliseconds
timestamp.  The `TodoList` store never inspects dates: it only stores
and returns them, so any value type with decidable equality is
faithful. -/
abbrev DateMs := Int

/-- The `TodoItem` interface of `src/app.ts`:
`{ id: number; task: string; completed: boolean; dueDate: Date | null }`. -/
structure TodoItem where
  id : Nat
  task : String
  completed : Bool
  dueDate : Option DateMs
  deriving DecidableEq, Repr

/-- The private state of the `TodoList` class of `src/app.ts`:
`todos: TodoItem[] = []` and `nextId: number = 1`. -/
structure TodoList where
  todos : List TodoItem
  nextId : Nat
  deriving DecidableEq, Repr

/-- A freshly constructed `TodoList`: `todos = []`, `nextId = 1`. -/
def TodoList.empty : TodoList := ⟨[], 1⟩

/-- The message of the single error kind of the store:
`` throw new Error(`Todo with id ${id} not found`) ``. -/
def notFoundMsg (id : Nat) : String :=
  "Todo with id " ++ toString id ++ " not found"

/-- `this.todos.find(todo => p(todo))` followed by an in-place field
update `f` of the found record: rebuilds the list with the first element
satisfying `p` replaced by its image under `f`; `none` when no element
satisfies `p` (the `else throw` branch of the source). -/
def updateFirst (p : TodoItem → Bool) (f : TodoItem → TodoItem) :
    List TodoItem → Option (List TodoItem)
  | [] => none
  | t :: ts =>
    if p t then some (f t :: ts)
    else (updateFirst p f ts).map (t :: ·)

/-- `this.todos.findIndex(todo => p(todo))` followed by
`this.todos.splice(index, 1)`: removes the first element satisfying `p`;
`none` when no element satisfies `p`. -/
def removeFirst (p : TodoItem → Bool) :
    List TodoItem → Option (List TodoItem)
  | [] => none
  | t :: ts =>
    if p t then some ts
    else (removeFirst p ts).map (t :: ·)

namespace TodoList

/-- `addTodo(task, dueDate = null)`: pushes
`{ id: this.nextId++, task, completed: false, dueDate }` onto `todos`.
The source method never throws, so the embedding is a total function. -/
def addTodo (s : TodoList) (task : String) (dueDate : Option DateMs) :
    TodoList :=
  { todos := s.todos ++ [{ id := s.nextId, task := task,
                           completed := false, dueDate := dueDate }],
    nextId := s.nextId + 1 }

/-- `completeTodo(id)`: finds the first todo with the given id and sets
`completed = true`; throws the not-found error otherwise. -/
def completeTodo (s : TodoList) (id : Nat) : Except String TodoList :=
  match updateFirst (fun t => t.id == id)
      (fun t => { t with completed := true }) s.todos with
  | some ts => .ok { s with todos := ts }
  | none => .error (notFoundMsg id)

/-- `toggleTodo(id)`: finds the first todo with the given id and flips
`completed`; throws the not-found error otherwise. -/
def toggleTodo (s : TodoList) (id : Nat) : Except String TodoList :=
  match updateFirst (fun t => t.id == id)
      (fun t => { t with completed := !t.completed }) s.todos with
  | some ts => .ok { s with todos := ts }
  | none => .error (notFoundMsg id)

/-- `removeTodo(id)`: `findIndex` + `splice(index, 1)` on the first todo
with the given id; throws the not-found error when `findIndex` gives
`-1`. -/
def removeTodo (s : TodoList) (id : Nat) : Except String TodoList :=
  match removeFirst (fun t => t.id == id) s.todos with
  | some ts => .ok { s with todos := ts }
  | none => .error (notFoundMsg id)

/-- `listTodos()`: returns `[...this.todos]`, a copy of the array whose
value is the stored sequence itself. -/
def listTodos (s : TodoList) : List TodoItem := s.todos

/-- `filterTodos(completed)`: `this.todos.filter(todo => todo.completed
=== completed)`. -/
def filterTodos (s : TodoList) (completed : Bool) : List TodoItem :=
  s.todos.filter (fun t => t.completed == completed)

/-- `updateTodoTask(id, newTask)`: finds the first todo with the given
id and replaces its `task` field; throws the not-found error
otherwise. -/
def updateTodoTask (s : TodoList) (id : Nat) (newTask : String) :
    Except String TodoList :=
  match updateFirst (fun t => t.id == id)
      (fun t => { t with task := newTask }) s.todos with
  | some ts => .ok { s with todos := ts }
  | none => .error (notFoundMsg id)

/-- `updateTodoDueDate(id, newDueDate)`: finds the first todo with the
given id and replaces its `dueDate` field; throws the not-found error
otherwise. -/
def updateTodoDueDate (s : TodoList) (id : Nat)
    (newDueDate : Option DateMs) : Except String TodoList :=
  match updateFirst (fun t => t.id == id)
      (fun t => { t with dueDate := newDueDate }) s.todos with
  | some ts => .ok { s with todos := ts }
  | none => .error (notFoundMsg id)

/-- `clearCompleted()`: `this.todos = this.todos.filter(todo =>
!todo.completed)`. -/
def clearCompleted (s : TodoList) : TodoList :=
  { s with todos := s.todos.filter (fun t => !t.completed) }

end TodoList

/-- One client-visible store operation, used to reason about arbitrary
sequences of calls on a `TodoList`. -/
inductive Op where
  | create (task : String) (dueDate : Option DateMs)
  | markCompleted (id : Nat)
  | toggleCompleted (id : Nat)
  | remove (id : Nat)
  | updateDescription (id : Nat) (newTask : String)
  | updateDueDate (id : Nat) (newDueDate : Option DateMs)
  | clearCompleted
  deriving DecidableEq, Repr

/-- The state after a fallible call: the new store on success, the old
store when the method threw (the `TodoApp` handlers catch the error and
keep going; the throwing methods mutate nothing before they throw). -/
def orKeep (s : TodoList) : Except String TodoList → TodoList
  | .ok s' => s'
  | .error _ => s

/-- Applies one operation to the store, keeping the previous state when
the call throws. -/
def applyOp (s : TodoList) : Op → TodoList
  | .create task due => s.addTodo task due
  | .markCompleted id => orKeep s (s.completeTodo id)
  | .toggleCompleted id => orKeep s (s.toggleTodo id)
  | .remove id => orKeep s (s.removeTodo id)
  | .updateDescription id newTask => orKeep s (s.updateTodoTask id newTask)
  | .updateDueDate id newDue => orKeep s (s.updateTodoDueDate id newDue)
  | .clearCompleted => s.clearCompleted

/-- Runs a sequence of operations from a given store state. -/
def runOps (s : TodoList) : List Op → TodoList
  | [] => s
  | op :: ops => runOps (applyOp s op) ops

/-- The ids assigned by the `create` calls of an operation sequence, in
call order: each `create` assigns the current `nextId`. -/
def assignedIds (s : TodoList) : List Op → List Nat
  | [] => []
  | .create task due :: ops =>
      s.nextId :: assignedIds (applyOp s (.create task due)) ops
  | .markCompleted id :: ops =>
      assignedIds (applyOp s (.markCompleted id)) ops
  | .toggleCompleted id :: ops =>
      assignedIds (applyOp s (.toggleCompleted id)) ops
  | .remove id :: ops => assignedIds (applyOp s (.remove id)) ops
  | .updateDescription id newTask :: ops =>
      assignedIds (applyOp s (.updateDescription id newTask)) ops
  | .updateDueDate id newDue :: ops =>
      assignedIds (applyOp s (.updateDueDate id newDue)) ops
  | .clearCompleted :: ops => assignedIds (applyOp s .clearCompleted) ops

/-- The number of `create` operations in a sequence. -/
def countCreates : List Op → Nat
  | [] => 0
  | .create _ _ :: ops => countCreates ops + 1
  | .markCompleted _ :: ops => countCreates ops
  | .toggleCompleted _ :: ops => countCreates ops
  | .remove _ :: ops => countCreates ops
  | .updateDescription _ _ :: ops => countCreates ops
  | .updateDueDate _ _ :: ops => countCreates ops
  | .clearCompleted :: ops => countCreates ops

/-- The store invariant: `nextId` is at least its initial value `1`, and
the ids currently in the store, read in storage order, form a
subsequence of `1, 2, …, nextId - 1`.  This packages id uniqueness,
id-monotonicity along the stored order, and freshness of `nextId`. -/
def StoreInv (s : TodoList) : Prop :=
  1 ≤ s.nextId ∧ s.todos.map TodoItem.id <+ List.range' 1 (s.nextId - 1)

example : (TodoList.empty.addTodo "Buy milk" none).nextId = 2 := by decide
example :
    TodoList.listTodos (TodoList.empty.addTodo "Buy milk" none) =
      [⟨1, "Buy milk", false, none⟩] := by decide
example :
    (TodoList.empty.addTodo "a" none).removeTodo 2 =
      .error (notFoundMsg 2) := by rfl
example :
    assignedIds TodoList.empty
      [Op.create "a" none, Op.remove 1, Op.create "b" none] = [1, 2] := by
  decide

/-! ### Helper lemmas about `updateFirst` and `removeFirst` -/

lemma range'_concat_one (s n : Nat) :
    List.range' s (n + 1) = List.range' s n ++ [s + n] := by
  induction n generalizing s with
  | zero => simp [List.range'_succ]
  | succ n ih =>
      rw [List.range'_succ, ih (s + 1), List.range'_succ]
      simp [Nat.add_assoc, Nat.add_comm 1 n]

lemma updateFirst_eq_none (p : TodoItem → Bool) (f : TodoItem → TodoItem) :
    ∀ l : List TodoItem, updateFirst p f l = none ↔ ∀ t ∈ l, p t = false
  | [] => by simp [updateFirst]
  | t :: ts => by
      by_cases hp : p t = true
      · simp [updateFirst, hp]
      · simp only [Bool.not_eq_true] at hp
        simp [updateFirst, hp, Option.map_eq_none',
          updateFirst_eq_none p f ts]

lemma removeFirst_eq_none (p : TodoItem → Bool) :
    ∀ l : List TodoItem, removeFirst p l = none ↔ ∀ t ∈ l, p t = false
  | [] => by simp [removeFirst]
  | t :: ts => by
      by_cases hp : p t = true
      · simp [removeFirst, hp]
      · simp only [Bool.not_eq_true] at hp
        simp [removeFirst, hp, Option.map_eq_none', removeFirst_eq_none p ts]

lemma updateFirst_some_spec (p : TodoItem → Bool) (f : TodoItem → TodoItem) :
    ∀ l l' : List TodoItem, updateFirst p f l = some l' →
      ∃ l₁ t l₂, l = l₁ ++ t :: l₂ ∧ (∀ u ∈ l₁, p u = false) ∧
        p t = true ∧ l' = l₁ ++ f t :: l₂
  | [], l' => by simp [updateFirst]
  | t :: ts, l' => by
      by_cases hp : p t = true
      · intro h
        simp only [updateFirst, hp, if_true, Option.some.injEq] at h
        exact ⟨[], t, ts, by simp, by simp, hp, by simp [h.symm]⟩
      · simp only [Bool.not_eq_true] at hp
        intro h
        simp only [updateFirst, hp, Bool.false_eq_true, if_false,
          Option.map_eq_some'] at h
        obtain ⟨ts', hts', rfl⟩ := h
        obtain ⟨l₁, u, l₂, hl, hl₁, hu, hl'⟩ :=
          updateFirst_some_spec p f ts ts' hts'
        exact ⟨t :: l₁, u, l₂, by simp [hl], by
          intro v hv
          rcases List.mem_cons.mp hv with rfl | hv
          · exact hp
          · exact hl₁ v hv, hu, by simp [hl']⟩

lemma removeFirst_some_spec (p : TodoItem → Bool) :
    ∀ l l' : List TodoItem, removeFirst p l = some l' →
      ∃ l₁ t l₂, l = l₁ ++ t :: l₂ ∧ (∀ u ∈ l₁, p u = false) ∧
        p t = true ∧ l' = l₁ ++ l₂
  | [], l' => by simp [removeFirst]
  | t :: ts, l' => by
      by_cases hp : p t = true
      · intro h
        simp only [removeFirst, hp, if_true, Option.some.injEq] at h
        exact ⟨[], t, ts, by simp, by simp, hp, by simp [h.symm]⟩
      · simp only [Bool.not_eq_true] at hp
        intro h
        simp only [removeFirst, hp, Bool.false_eq_true, if_false,
          Option.map_eq_some'] at h
        obtain ⟨ts', hts', rfl⟩ := h
        obtain ⟨l₁, u, l₂, hl, hl₁, hu, hl'⟩ :=
          removeFirst_some_spec p ts ts' hts'
        exact ⟨t :: l₁, u, l₂, by simp [hl], by
          intro v hv
          rcases List.mem_cons.mp hv with rfl | hv
          · exact hp
          · exact hl₁ v hv, hu, by simp [hl']⟩

lemma updateFirst_of_decomp (p : TodoItem → Bool) (f : TodoItem → TodoItem)
    (t : TodoItem) (l₂ : List TodoItem) (ht : p t = true) :
    ∀ l₁ : List TodoItem, (∀ u ∈ l₁, p u = false) →
      updateFirst p f (l₁ ++ t :: l₂) = some (l₁ ++ f t :: l₂)
  | [], _ => by simp [updateFirst, ht]
  | u :: l₁, h₁ => by
      have hu : p u = false := h₁ u (by simp)
      have ih := updateFirst_of_decomp p f t l₂ ht l₁
        (fun v hv => h₁ v (by simp [hv]))
      simp [updateFirst, hu, ih]

lemma updateFirst_map_id (p : TodoItem → Bool) (f : TodoItem → TodoItem) :
    ∀ l l' : List TodoItem, updateFirst p f l = some l' →
      (∀ t, (f t).id = t.id) →
      l'.map TodoItem.id = l.map TodoItem.id := by
  intro l l' h hf
  obtain ⟨l₁, t, l₂, hl, _, _, hl'⟩ := updateFirst_some_spec p f l l' h
  subst hl hl'
  simp [hf]

lemma removeFirst_sublist (p : TodoItem → Bool) :
    ∀ l l' : List TodoItem, removeFirst p l = some l' → l' <+ l := by
  intro l l' h
  obtain ⟨l₁, t, l₂, hl, _, _, hl'⟩ := removeFirst_some_spec p l l' h
  subst hl hl'
  exact (List.sublist_cons_self t l₂).append_left l₁

/-! ### State invariant preservation and sequence lemmas -/

lemma storeInv_empty : StoreInv TodoList.empty := by
  constructor
  · exact Nat.le_refl 1
  · simp [TodoList.empty]

lemma storeInv_addTodo (s : TodoList) (task : String) (due : Option DateMs)
    (hs : StoreInv s) : StoreInv (s.addTodo task due) := by
  obtain ⟨h1, h2⟩ := hs
  constructor
  · exact Nat.le_succ_of_le h1
  · have hrange : List.range' 1 s.nextId =
        List.range' 1 (s.nextId - 1) ++ [s.nextId] := by
      have hn : s.nextId - 1 + 1 = s.nextId := Nat.succ_pred_eq_of_pos h1
      calc List.range' 1 s.nextId = List.range' 1 (s.nextId - 1 + 1) := by
            rw [hn]
        _ = List.range' 1 (s.nextId - 1) ++ [1 + (s.nextId - 1)] :=
            range'_concat_one 1 (s.nextId - 1)
        _ = List.range' 1 (s.nextId - 1) ++ [s.nextId] := by
            rw [Nat.add_comm 1 (s.nextId - 1), hn]
    simp only [TodoList.addTodo, Nat.add_sub_cancel, List.map_append,
      List.map_cons, List.map_nil]
    rw [hrange]
    exact h2.append (List.Sublist.refl _)

lemma storeInv_todos (s : TodoList) (ts : List TodoItem)
    (hmap : ts.map TodoItem.id = s.todos.map TodoItem.id)
    (hs : StoreInv s) : StoreInv { s with todos := ts } := by
  obtain ⟨h1, h2⟩ := hs
  exact ⟨h1, by rw [hmap]; exact h2⟩

lemma storeInv_sub (s : TodoList) (ts : List TodoItem)
    (hsub : ts <+ s.todos) (hs : StoreInv s) :
    StoreInv { s with todos := ts } := by
  obtain ⟨h1, h2⟩ := hs
  exact ⟨h1, ((hsub.map TodoItem.id).trans h2)⟩

lemma storeInv_applyOp (s : TodoList) (op : Op) (hs : StoreInv s) :
    StoreInv (applyOp s op) := by
  cases op with
  | create task due => exact storeInv_addTodo s task due hs
  | markCompleted id =>
      simp only [applyOp, TodoList.completeTodo]
      cases h : updateFirst (fun t => t.id == id)
          (fun t => { t with completed := true }) s.todos with
      | none => exact hs
      | some ts =>
          exact storeInv_todos s ts
            (updateFirst_map_id _ _ _ _ h (fun t => rfl)) hs
  | toggleCompleted id =>
      simp only [applyOp, TodoList.toggleTodo]
      cases h : updateFirst (fun t => t.id == id)
          (fun t => { t with completed := !t.completed }) s.todos with
      | none => exact hs
      | some ts =>
          exact storeInv_todos s ts
            (updateFirst_map_id _ _ _ _ h (fun t => rfl)) hs
  | remove id =>
      simp only [applyOp, TodoList.removeTodo]
      cases h : removeFirst (fun t => t.id == id) s.todos with
      | none => exact hs
      | some ts => exact storeInv_sub s ts (removeFirst_sublist _ _ _ h) hs
  | updateDescription id newTask =>
      simp only [applyOp, TodoList.updateTodoTask]
      cases h : updateFirst (fun t => t.id == id)
          (fun t => { t with task := newTask }) s.todos with
      | none => exact hs
      | some ts =>
          exact storeInv_todos s ts
            (updateFirst_map_id _ _ _ _ h (fun t => rfl)) hs
  | updateDueDate id newDue =>
      simp only [applyOp, TodoList.updateTodoDueDate]
      cases h : updateFirst (fun t => t.id == id)
          (fun t => { t with dueDate := newDue }) s.todos with
      | none => exact hs
      | some ts =>
          exact storeInv_todos s ts
            (updateFirst_map_id _ _ _ _ h (fun t => rfl)) hs
  | clearCompleted =>
      exact storeInv_sub s _ (List.filter_sublist s.todos) hs

lemma storeInv_runOps (ops : List Op) : ∀ s : TodoList, StoreInv s →
    StoreInv (runOps s ops) := by
  induction ops with
  | nil => intro s hs; exact hs
  | cons op ops ih =>
      intro s hs
      exact ih (applyOp s op) (storeInv_applyOp s op hs)

lemma countCreates_cons (op : Op) (ops : List Op) :
    countCreates (op :: ops) = countCreates [op] + countCreates ops := by
  cases op <;> simp [countCreates]
  all_goals omega

lemma nextId_applyOp (s : TodoList) (op : Op) :
    (applyOp s op).nextId = s.nextId + countCreates [op] := by
  cases op with
  | create task due => simp [applyOp, TodoList.addTodo, countCreates]
  | markCompleted id =>
      simp only [applyOp, TodoList.completeTodo, countCreates]
      cases h : updateFirst (fun t => t.id == id)
          (fun t => { t with completed := true }) s.todos <;> simp [orKeep]
  | toggleCompleted id =>
      simp only [applyOp, TodoList.toggleTodo, countCreates]
      cases h : updateFirst (fun t => t.id == id)
          (fun t => { t with completed := !t.completed }) s.todos <;>
        simp [orKeep]
  | remove id =>
      simp only [applyOp, TodoList.removeTodo, countCreates]
      cases h : removeFirst (fun t => t.id == id) s.todos <;> simp [orKeep]
  | updateDescription id newTask =>
      simp only [applyOp, TodoList.updateTodoTask, countCreates]
      cases h : updateFirst (fun t => t.id == id)
          (fun t => { t with task := newTask }) s.todos <;> simp [orKeep]
  | updateDueDate id newDue =>
      simp only [applyOp, TodoList.updateTodoDueDate, countCreates]
      cases h : updateFirst (fun t => t.id == id)
          (fun t => { t with dueDate := newDue }) s.todos <;> simp [orKeep]
  | clearCompleted => simp [applyOp, TodoList.clearCompleted, countCreates]

lemma nextId_runOps (ops : List Op) : ∀ s : TodoList,
    (runOps s ops).nextId = s.nextId + countCreates ops := by
  induction ops with
  | nil => intro s; simp [runOps, countCreates]
  | cons op ops ih =>
      intro s
      rw [runOps, ih (applyOp s op), nextId_applyOp, countCreates_cons op ops]
      omega

lemma assignedIds_eq (ops : List Op) : ∀ s : TodoList,
    assignedIds s ops = List.range' s.nextId (countCreates ops) := by
  induction ops with
  | nil => intro s; simp [assignedIds, countCreates]
  | cons op ops ih =>
      intro s
      cases op with
      | create task due =>
          rw [assignedIds, ih (applyOp s (Op.create task due))]
          have hn : (applyOp s (Op.create task due)).nextId = s.nextId + 1 := by
            simp [applyOp, TodoList.addTodo]
          rw [hn, countCreates, List.range'_succ]
      | markCompleted id =>
          rw [assignedIds, ih _, nextId_applyOp]
          simp [countCreates]
      | toggleCompleted id =>
          rw [assignedIds, ih _, nextId_applyOp]
          simp [countCreates]
      | remove id =>
          rw [assignedIds, ih _, nextId_applyOp]
          simp [countCreates]
      | updateDescription id newTask =>
          rw [assignedIds, ih _, nextId_applyOp]
          simp [countCreates]
      | updateDueDate id newDue =>
          rw [assignedIds, ih _, nextId_applyOp]
          simp [countCreates]
      | clearCompleted =>
          rw [assignedIds, ih _, nextId_applyOp]
          simp [countCreates]

lemma runOps_append (pre suf : List Op) : ∀ s : TodoList,
    runOps s (pre ++ suf) = runOps (runOps s pre) suf := by
  induction pre with
  | nil => intro s; simp [runOps]
  | cons op pre ih => intro s; rw [List.cons_append, runOps, runOps, ih]

/-! ### Error characterisation helpers -/

lemma except_error_iff (p : TodoItem → Bool) (f : TodoItem → TodoItem)
    (s : TodoList) (m e : String) (r : Except String TodoList)
    (hsome : ∀ ts, updateFirst p f s.todos = some ts →
      r = .ok { s with todos := ts })
    (hnone : updateFirst p f s.todos = none → r = .error m) :
    (r = .error e ↔ (e = m ∧ ∀ t ∈ s.todos, p t = false)) := by
  cases h : updateFirst p f s.todos with
  | some ts =>
      rw [hsome ts h]
      constructor
      · intro hc
        simp at hc
      · rintro ⟨-, habs⟩
        rw [(updateFirst_eq_none p f s.todos).mpr habs] at h
        simp at h
  | none =>
      rw [hnone h]
      have habs := (updateFirst_eq_none p f s.todos).mp h
      constructor
      · intro hc
        injection hc with hme
        exact ⟨hme.symm, habs⟩
      · rintro ⟨rfl, -⟩
        rfl

lemma except_error_iff_remove (p : TodoItem → Bool)
    (s : TodoList) (m e : String) (r : Except String TodoList)
    (hsome : ∀ ts, removeFirst p s.todos = some ts →
      r = .ok { s with todos := ts })
    (hnone : removeFirst p s.todos = none → r = .error m) :
    (r = .error e ↔ (e = m ∧ ∀ t ∈ s.todos, p t = false)) := by
  cases h : removeFirst p s.todos with
  | some ts =>
      rw [hsome ts h]
      constructor
      · intro hc
        simp at hc
      · rintro ⟨-, habs⟩
        rw [(removeFirst_eq_none p s.todos).mpr habs] at h
        simp at h
  | none =>
      rw [hnone h]
      have habs := (removeFirst_eq_none p s.todos).mp h
      constructor
      · intro hc
        injection hc with hme
        exact ⟨hme.symm, habs⟩
      · rintro ⟨rfl, -⟩
        rfl

/-! ### The claims -/

/-- C1: across any sequence of store operations starting from a fresh
store, the ids assigned by `create` are exactly `1, 2, …` in call order
(hence strictly increasing, starting at 1, never repeated, even when
interleaved with `remove`); `nextId` never decreases along the sequence;
and the ids present in the store are unique at every intermediate
point. -/
theorem claim_C1_ids_monotone_unique : ∀ ops : List Op,
    assignedIds TodoList.empty ops = List.range' 1 (countCreates ops)
  ∧ (assignedIds TodoList.empty ops).Pairwise (· < ·)
  ∧ (∀ pre suf, ops = pre ++ suf →
      (runOps TodoList.empty pre).nextId ≤ (runOps TodoList.empty ops).nextId)
  ∧ (∀ pre suf, ops = pre ++ suf →
      ((runOps TodoList.empty pre).todos.map TodoItem.id).Nodup) := by
  intro ops
  refine ⟨?_, ?_, ?_, ?_⟩
  · rw [assignedIds_eq ops TodoList.empty]
    rfl
  · rw [assignedIds_eq ops TodoList.empty]
    exact List.pairwise_lt_range' ..
  · intro pre suf h
    subst h
    rw [runOps_append,
      nextId_runOps suf (runOps TodoList.empty pre)]
    omega
  · intro pre suf h
    have hinv := storeInv_runOps pre TodoList.empty storeInv_empty
    have hpair :
        ((runOps TodoList.empty pre).todos.map TodoItem.id).Pairwise (· < ·) :=
      (List.pairwise_lt_range' ..).sublist hinv.2
    exact hpair.imp Nat.ne_of_lt

/-- Witness for C1 on a concrete run: two creates interleaved with a
remove assign ids `[1, 2]`, `nextId` does not decrease across the
prefix, and the stored ids after the prefix are unique. -/
theorem claim_C1_ids_monotone_unique_witness :
    assignedIds TodoList.empty
        [Op.create "a" none, Op.remove 1, Op.create "b" none] =
      List.range' 1 2
  ∧ (runOps TodoList.empty [Op.create "a" none]).nextId ≤
      (runOps TodoList.empty
        [Op.create "a" none, Op.remove 1, Op.create "b" none]).nextId
  ∧ ((runOps TodoList.empty [Op.create "a" none]).todos.map
      TodoItem.id).Nodup :=
  ⟨(claim_C1_ids_monotone_unique
      [Op.create "a" none, Op.remove 1, Op.create "b" none]).1,
   (claim_C1_ids_monotone_unique
      [Op.create "a" none, Op.remove 1, Op.create "b" none]).2.2.1
      [Op.create "a" none] [Op.remove 1, Op.create "b" none] rfl,
   (claim_C1_ids_monotone_unique
      [Op.create "a" none, Op.remove 1, Op.create "b" none]).2.2.2
      [Op.create "a" none] [Op.remove 1, Op.create "b" none] rfl⟩

/-- C2: `addTodo` appends a task with the fresh id `nextId`,
`completed = false` and the given description and due date to the end of
the sequence, bumps `nextId`, and the assigned id is obtainable by the
caller as the id of the last listed task.  It is a total function, so it
always succeeds. -/
theorem claim_C2_create_appends :
    ∀ (s : TodoList) (task : String) (due : Option DateMs),
      TodoList.listTodos (s.addTodo task due) =
        TodoList.listTodos s ++
          [{ id := s.nextId, task := task, completed := false,
             dueDate := due }]
    ∧ (s.addTodo task due).nextId = s.nextId + 1
    ∧ (TodoList.listTodos (s.addTodo task due)).getLast? =
        some { id := s.nextId, task := task, completed := false,
               dueDate := due } := by
  intro s task due
  refine ⟨rfl, rfl, ?_⟩
  simp [TodoList.listTodos, TodoList.addTodo]

/-- C3: each id-keyed operation reports an error exactly when no stored
task carries the given id, and the only error value it can report is the
not-found message for that id. -/
theorem claim_C3_notfound_iff :
    ∀ (s : TodoList) (id : Nat) (newTask : String) (newDue : Option DateMs)
      (e : String),
      (s.completeTodo id = .error e ↔
        (e = notFoundMsg id ∧ ∀ t ∈ s.todos, t.id ≠ id))
    ∧ (s.toggleTodo id = .error e ↔
        (e = notFoundMsg id ∧ ∀ t ∈ s.todos, t.id ≠ id))
    ∧ (s.removeTodo id = .error e ↔
        (e = notFoundMsg id ∧ ∀ t ∈ s.todos, t.id ≠ id))
    ∧ (s.updateTodoTask id newTask = .error e ↔
        (e = notFoundMsg id ∧ ∀ t ∈ s.todos, t.id ≠ id))
    ∧ (s.updateTodoDueDate id newDue = .error e ↔
        (e = notFoundMsg id ∧ ∀ t ∈ s.todos, t.id ≠ id)) := by
  intro s id newTask newDue e
  have hconv : ∀ (r : Except String TodoList),
      (r = .error e ↔
        (e = notFoundMsg id ∧
          ∀ t ∈ s.todos, (fun t : TodoItem => t.id == id) t = false)) →
      (r = .error e ↔
        (e = notFoundMsg id ∧ ∀ t ∈ s.todos, t.id ≠ id)) := by
    intro r hr
    rw [hr]
    constructor <;> rintro ⟨he, hall⟩ <;> refine ⟨he, fun t ht => ?_⟩
    · simpa using hall t ht
    · simpa using hall t ht
  refine ⟨hconv _ ?_, hconv _ ?_, hconv _ ?_, hconv _ ?_, hconv _ ?_⟩
  · exact except_error_iff (fun t => t.id == id)
      (fun t => { t with completed := true }) s _ e _
      (fun ts h => by simp [TodoList.completeTodo, h])
      (fun h => by simp [TodoList.completeTodo, h])
  · exact except_error_iff (fun t => t.id == id)
      (fun t => { t with completed := !t.completed }) s _ e _
      (fun ts h => by simp [TodoList.toggleTodo, h])
      (fun h => by simp [TodoList.toggleTodo, h])
  · exact except_error_iff_remove (fun t => t.id == id) s _ e _
      (fun ts h => by simp [TodoList.removeTodo, h])
      (fun h => by simp [TodoList.removeTodo, h])
  · exact except_error_iff (fun t => t.id == id)
      (fun t => { t with task := newTask }) s _ e _
      (fun ts h => by simp [TodoList.updateTodoTask, h])
      (fun h => by simp [TodoList.updateTodoTask, h])
  · exact except_error_iff (fun t => t.id == id)
      (fun t => { t with dueDate := newDue }) s _ e _
      (fun ts h => by simp [TodoList.updateTodoDueDate, h])
      (fun h => by simp [TodoList.updateTodoDueDate, h])

lemma applyOp_mem_id_iff (s : TodoList) (op : Op) (t : TodoItem)
    (hN : (s.todos.map TodoItem.id).Nodup) (ht : t ∈ s.todos) :
    t.id ∈ (applyOp s op).todos.map TodoItem.id ↔
      ¬(op = Op.remove t.id ∨
        (op = Op.clearCompleted ∧ t.completed = true)) := by
  cases op with
  | create task due =>
      have hmem : t.id ∈ s.todos.map TodoItem.id :=
        List.mem_map_of_mem TodoItem.id ht
      simp [applyOp, TodoList.addTodo, hmem]
  | markCompleted idq =>
      have hmem : t.id ∈ s.todos.map TodoItem.id :=
        List.mem_map_of_mem TodoItem.id ht
      have hmap : (applyOp s (Op.markCompleted idq)).todos.map TodoItem.id =
          s.todos.map TodoItem.id := by
        simp only [applyOp, TodoList.completeTodo]
        cases h : updateFirst (fun u => u.id == idq)
            (fun u => { u with completed := true }) s.todos with
        | none => rfl
        | some ts =>
            show ts.map TodoItem.id = s.todos.map TodoItem.id
            exact updateFirst_map_id _ _ s.todos ts h (fun u => rfl)
      rw [hmap]
      simp [hmem]
  | toggleCompleted idq =>
      have hmem : t.id ∈ s.todos.map TodoItem.id :=
        List.mem_map_of_mem TodoItem.id ht
      have hmap : (applyOp s (Op.toggleCompleted idq)).todos.map TodoItem.id =
          s.todos.map TodoItem.id := by
        simp only [applyOp, TodoList.toggleTodo]
        cases h : updateFirst (fun u => u.id == idq)
            (fun u => { u with completed := !u.completed }) s.todos with
        | none => rfl
        | some ts =>
            show ts.map TodoItem.id = s.todos.map TodoItem.id
            exact updateFirst_map_id _ _ s.todos ts h (fun u => rfl)
      rw [hmap]
      simp [hmem]
  | updateDescription idq newTask =>
      have hmem : t.id ∈ s.todos.map TodoItem.id :=
        List.mem_map_of_mem TodoItem.id ht
      have hmap :
          (applyOp s (Op.updateDescription idq newTask)).todos.map
            TodoItem.id = s.todos.map TodoItem.id := by
        simp only [applyOp, TodoList.updateTodoTask]
        cases h : updateFirst (fun u => u.id == idq)
            (fun u => { u with task := newTask }) s.todos with
        | none => rfl
        | some ts =>
            show ts.map TodoItem.id = s.todos.map TodoItem.id
            exact updateFirst_map_id _ _ s.todos ts h (fun u => rfl)
      rw [hmap]
      simp [hmem]
  | updateDueDate idq newDue =>
      have hmem : t.id ∈ s.todos.map TodoItem.id :=
        List.mem_map_of_mem TodoItem.id ht
      have hmap :
          (applyOp s (Op.updateDueDate idq newDue)).todos.map TodoItem.id =
            s.todos.map TodoItem.id := by
        simp only [applyOp, TodoList.updateTodoDueDate]
        cases h : updateFirst (fun u => u.id == idq)
            (fun u => { u with dueDate := newDue }) s.todos with
        | none => rfl
        | some ts =>
            show ts.map TodoItem.id = s.todos.map TodoItem.id
            exact updateFirst_map_id _ _ s.todos ts h (fun u => rfl)
      rw [hmap]
      simp [hmem]
  | remove idq =>
      by_cases hid : idq = t.id
      · subst hid
        cases h : removeFirst (fun u => u.id == t.id) s.todos with
        | none =>
            have := (removeFirst_eq_none _ s.todos).mp h t ht
            simp at this
        | some ts =>
            obtain ⟨l₁, u, l₂, hl, hl₁, hu, hts⟩ :=
              removeFirst_some_spec _ s.todos ts h
            have huid : u.id = t.id := by simpa using hu
            have happ : applyOp s (Op.remove t.id) = { s with todos := ts } := by
              simp [applyOp, TodoList.removeTodo, h, orKeep]
            rw [happ]
            have hN2 : ¬ t.id ∈ ts.map TodoItem.id := by
              rw [hts, ← huid]
              rw [hl] at hN
              have hsplit : ((l₁ ++ u :: l₂).map TodoItem.id) =
                  l₁.map TodoItem.id ++ u.id :: l₂.map TodoItem.id := by
                simp
              rw [hsplit] at hN
              have h2 := List.nodup_middle.mp hN
              have h3 := (List.nodup_cons.mp h2).1
              simpa using h3
            simp [hN2]
      · cases h : removeFirst (fun u => u.id == idq) s.todos with
        | none =>
            have happ : applyOp s (Op.remove idq) = s := by
              simp [applyOp, TodoList.removeTodo, h, orKeep]
            rw [happ]
            have hmem : t.id ∈ s.todos.map TodoItem.id :=
              List.mem_map_of_mem TodoItem.id ht
            simp [hmem, hid]
        | some ts =>
            obtain ⟨l₁, u, l₂, hl, hl₁, hu, hts⟩ :=
              removeFirst_some_spec _ s.todos ts h
            have huid : u.id = idq := by simpa using hu
            have htne : t ≠ u := by
              intro he
              exact hid (by rw [← huid, he])
            have htmem : t ∈ ts := by
              rw [hts]
              rw [hl] at ht
              rcases List.mem_append.mp ht with h1 | h1
              · exact List.mem_append.mpr (Or.inl h1)
              · rcases List.mem_cons.mp h1 with h2 | h2
                · exact absurd h2 htne
                · exact List.mem_append.mpr (Or.inr h2)
            have happ : applyOp s (Op.remove idq) = { s with todos := ts } := by
              simp [applyOp, TodoList.removeTodo, h, orKeep]
            rw [happ]
            have hmem : t.id ∈ ts.map TodoItem.id :=
              List.mem_map_of_mem TodoItem.id htmem
            simp [hmem, hid]
  | clearCompleted =>
      have happ : applyOp s Op.clearCompleted =
          { s with todos := s.todos.filter (fun u => !u.completed) } := rfl
      rw [happ]
      cases hc : t.completed with
      | false =>
          have htf : t ∈ s.todos.filter (fun u => !u.completed) := by
            rw [List.mem_filter]
            exact ⟨ht, by simp [hc]⟩
          have hmem := List.mem_map_of_mem TodoItem.id htf
          simp [hmem, hc]
      | true =>
          have hnot :
              ¬ t.id ∈ (s.todos.filter (fun u => !u.completed)).map
                TodoItem.id := by
            intro hmem
            obtain ⟨u, hu, huid⟩ := List.mem_map.mp hmem
            have hu2 := List.mem_filter.mp hu
            have hut : u = t := List.inj_on_of_nodup_map hN hu2.1 ht huid
            rw [hut] at hu2
            rw [hc] at hu2
            simp at hu2
          simp [hnot, hc]

/-- C4: after any sequence of operations on a fresh store, `listTodos`
returns exactly the stored sequence; the stored ids form a subsequence
of the creation-ordered ids `1, …, countCreates ops` and are strictly
increasing along the list (so no reordering by completion status or due
date ever happens); and the listing is exactly the tasks not yet
removed: a currently listed task keeps its id listed across the next
operation if and only if that operation is not a `remove` of its id and
not a `clearCompleted` while the task is completed — so no operation
ever drops a task that it does not remove. -/
theorem claim_C4_list_exact_insertion_order : ∀ ops : List Op,
    TodoList.listTodos (runOps TodoList.empty ops) =
      (runOps TodoList.empty ops).todos
  ∧ ((runOps TodoList.empty ops).todos.map TodoItem.id) <+
      List.range' 1 (countCreates ops)
  ∧ ((runOps TodoList.empty ops).todos.map TodoItem.id).Pairwise (· < ·)
  ∧ (∀ (op : Op) (t : TodoItem), t ∈ (runOps TodoList.empty ops).todos →
      (t.id ∈ (applyOp (runOps TodoList.empty ops) op).todos.map
          TodoItem.id ↔
        ¬(op = Op.remove t.id ∨
          (op = Op.clearCompleted ∧ t.completed = true)))) := by
  intro ops
  have hinv := storeInv_runOps ops TodoList.empty storeInv_empty
  have hn : (runOps TodoList.empty ops).nextId - 1 = countCreates ops := by
    rw [nextId_runOps ops TodoList.empty]
    show 1 + countCreates ops - 1 = countCreates ops
    omega
  have hpair :
      ((runOps TodoList.empty ops).todos.map TodoItem.id).Pairwise
        (· < ·) :=
    (List.pairwise_lt_range' ..).sublist hinv.2
  refine ⟨rfl, ?_, hpair, ?_⟩
  · have h2 := hinv.2
    rw [hn] at h2
    exact h2
  · intro op t ht
    exact applyOp_mem_id_iff (runOps TodoList.empty ops) op t
      (hpair.imp Nat.ne_of_lt) ht

/-- Witness for C4: after creating tasks 1 and 2 and completing task 1,
the completed task 1 is dropped by `clearCompleted` (and only then),
exactly as the survival characterisation states. -/
theorem claim_C4_list_exact_insertion_order_witness :
    (⟨1, "a", true, none⟩ : TodoItem).id ∈
        ((applyOp (runOps TodoList.empty
            [Op.create "a" none, Op.create "b" none, Op.markCompleted 1])
          Op.clearCompleted).todos.map TodoItem.id) ↔
      ¬(Op.clearCompleted = Op.remove (⟨1, "a", true, none⟩ : TodoItem).id ∨
        (Op.clearCompleted = Op.clearCompleted ∧
          (⟨1, "a", true, none⟩ : TodoItem).completed = true)) :=
  (claim_C4_list_exact_insertion_order
      [Op.create "a" none, Op.create "b" none, Op.markCompleted 1]).2.2.2
    Op.clearCompleted ⟨1, "a", true, none⟩ (by decide)

/-- C5: `clearCompleted` keeps exactly the tasks whose `completed` flag
is false, the survivors keep their relative order (the result is a
sublist of the original sequence), `nextId` is untouched, the operation
is total (always succeeds), and it is idempotent. -/
theorem claim_C5_clearCompleted_exact_idempotent : ∀ s : TodoList,
    (TodoList.clearCompleted s).todos =
      s.todos.filter (fun t => !t.completed)
  ∧ (TodoList.clearCompleted s).todos <+ s.todos
  ∧ (∀ t : TodoItem,
      t ∈ (TodoList.clearCompleted s).todos ↔
        t ∈ s.todos ∧ t.completed = false)
  ∧ (TodoList.clearCompleted s).nextId = s.nextId
  ∧ TodoList.clearCompleted (TodoList.clearCompleted s) =
      TodoList.clearCompleted s := by
  intro s
  refine ⟨rfl, List.filter_sublist s.todos, ?_, rfl, ?_⟩
  · intro t
    simp [TodoList.clearCompleted]
  · have h : (s.todos.filter (fun t => !t.completed)).filter
        (fun t => !t.completed) = s.todos.filter (fun t => !t.completed) := by
      rw [List.filter_filter]
      simp
    show (⟨(s.todos.filter (fun t => !t.completed)).filter
        (fun t => !t.completed), s.nextId⟩ : TodoList) =
      ⟨s.todos.filter (fun t => !t.completed), s.nextId⟩
    rw [h]

/-- C6: `filterTodos` returns the order-preserving subsequence of the
stored tasks whose `completed` flag matches the argument, and the two
filtered listings partition `listTodos`: membership in the listing is
membership in one of the two filters, and their lengths add up to the
listing's length. -/
theorem claim_C6_filter_partition : ∀ (s : TodoList) (c : Bool),
    TodoList.filterTodos s c <+ TodoList.listTodos s
  ∧ (∀ t : TodoItem, t ∈ TodoList.filterTodos s c ↔
      t ∈ TodoList.listTodos s ∧ t.completed = c)
  ∧ (∀ t : TodoItem, t ∈ TodoList.listTodos s ↔
      t ∈ TodoList.filterTodos s true ∨ t ∈ TodoList.filterTodos s false)
  ∧ (TodoList.filterTodos s true).length +
      (TodoList.filterTodos s false).length =
      (TodoList.listTodos s).length := by
  intro s c
  refine ⟨List.filter_sublist s.todos, ?_, ?_, ?_⟩
  · intro t
    simp [TodoList.filterTodos, TodoList.listTodos]
  · intro t
    constructor
    · intro ht
      cases hc : t.completed with
      | true =>
          exact Or.inl (by
            simp [TodoList.filterTodos, TodoList.listTodos] at ht ⊢
            exact ⟨ht, hc⟩)
      | false =>
          exact Or.inr (by
            simp [TodoList.filterTodos, TodoList.listTodos] at ht ⊢
            exact ⟨ht, hc⟩)
    · intro h
      rcases h with h | h
      · exact (List.mem_filter.mp h).1
      · exact (List.mem_filter.mp h).1
  · show (s.todos.filter (fun t => t.completed == true)).length +
        (s.todos.filter (fun t => t.completed == false)).length =
        s.todos.length
    induction s.todos with
    | nil => rfl
    | cons t ts ih =>
        cases hc : t.completed
        · simp [List.filter_cons, hc] at ih ⊢
          omega
        · simp [List.filter_cons, hc] at ih ⊢
          omega

/-- C7: when the store contains a task with the given id, toggling that
id twice in succession succeeds both times and returns the store to its
original state, so in particular the task's `completed` flag returns to
its original value. -/
theorem claim_C7_toggle_twice_identity : ∀ (s : TodoList) (id : Nat),
    (∃ t ∈ s.todos, t.id = id) →
    Except.bind (s.toggleTodo id) (fun s' => s'.toggleTodo id) =
      Except.ok s := by
  intro s id hex
  cases h : updateFirst (fun t => t.id == id)
      (fun t => { t with completed := !t.completed }) s.todos with
  | none =>
      obtain ⟨t, ht, hid⟩ := hex
      have := (updateFirst_eq_none _ _ s.todos).mp h t ht
      simp [hid] at this
  | some ts =>
      obtain ⟨l₁, t, l₂, hl, hl₁, ht, hts⟩ :=
        updateFirst_some_spec _ _ _ _ h
      have h2 := updateFirst_of_decomp (fun t : TodoItem => t.id == id)
        (fun t => { t with completed := !t.completed })
        ({ t with completed := !t.completed }) l₂ ht l₁ hl₁
      have hff : ({ t with completed := !(!t.completed) } : TodoItem) = t := by
        cases t
        simp
      have hstep1 : s.toggleTodo id =
          .ok { s with todos :=
            l₁ ++ { t with completed := !t.completed } :: l₂ } := by
        simp [TodoList.toggleTodo, h, hts]
      have hstep2 : TodoList.toggleTodo
          { s with todos :=
            l₁ ++ { t with completed := !t.completed } :: l₂ } id =
          .ok s := by
        simp only [TodoList.toggleTodo]
        rw [h2]
        show Except.ok ({ s with todos :=
          l₁ ++ { t with completed := !(!t.completed) } :: l₂ }) =
          Except.ok s
        rw [hff, ← hl]
      rw [hstep1]
      show TodoList.toggleTodo
          { s with todos :=
            l₁ ++ { t with completed := !t.completed } :: l₂ } id =
        Except.ok s
      exact hstep2

/-- Witness for C7: toggling the only task of a one-task store twice
returns the store unchanged. -/
theorem claim_C7_toggle_twice_identity_witness :
    Except.bind
        (TodoList.toggleTodo ⟨[⟨1, "a", false, none⟩], 2⟩ 1)
        (fun s' => s'.toggleTodo 1) =
      Except.ok (⟨[⟨1, "a", false, none⟩], 2⟩ : TodoList) :=
  claim_C7_toggle_twice_identity ⟨[⟨1, "a", false, none⟩], 2⟩ 1
    ⟨⟨1, "a", false, none⟩, by simp, rfl⟩

/-- C8: when the store contains a task with the given id,
`updateTodoTask` succeeds and rewrites exactly the first such task,
replacing its description with the new one while keeping its id,
`completed` flag and due date, leaving every other task and `nextId`
unchanged and preserving the order. -/
theorem claim_C8_update_description_frame :
    ∀ (s : TodoList) (id : Nat) (newTask : String),
      (∃ t ∈ s.todos, t.id = id) →
      ∃ l₁ t l₂, s.todos = l₁ ++ t :: l₂ ∧ (∀ u ∈ l₁, u.id ≠ id) ∧
        t.id = id ∧
        s.updateTodoTask id newTask =
          Except.ok ⟨l₁ ++ { id := t.id, task := newTask,
                             completed := t.completed,
                             dueDate := t.dueDate } :: l₂, s.nextId⟩ := by
  intro s id newTask hex
  cases h : updateFirst (fun t => t.id == id)
      (fun t => { t with task := newTask }) s.todos with
  | none =>
      obtain ⟨t, ht, hid⟩ := hex
      have := (updateFirst_eq_none _ _ s.todos).mp h t ht
      simp [hid] at this
  | some ts =>
      obtain ⟨l₁, t, l₂, hl, hl₁, ht, hts⟩ :=
        updateFirst_some_spec _ _ _ _ h
      refine ⟨l₁, t, l₂, hl, ?_, ?_, ?_⟩
      · intro u hu
        simpa using hl₁ u hu
      · simpa using ht
      · simp only [TodoList.updateTodoTask, h, hts]

/-- Witness for C8: updating the description of task 2 in a two-task
store rewrites exactly that task. -/
theorem claim_C8_update_description_frame_witness :
    ∃ l₁ t l₂,
      (⟨[⟨1, "a", false, none⟩, ⟨2, "b", true, some 5⟩], 3⟩ :
        TodoList).todos = l₁ ++ t :: l₂ ∧ (∀ u ∈ l₁, u.id ≠ 2) ∧
      t.id = 2 ∧
      TodoList.updateTodoTask
          ⟨[⟨1, "a", false, none⟩, ⟨2, "b", true, some 5⟩], 3⟩ 2 "c" =
        Except.ok ⟨l₁ ++ { id := t.id, task := "c",
                           completed := t.completed,
                           dueDate := t.dueDate } :: l₂, 3⟩ :=
  claim_C8_update_description_frame
    ⟨[⟨1, "a", false, none⟩, ⟨2, "b", true, some 5⟩], 3⟩ 2 "c"
    ⟨⟨2, "b", true, some 5⟩, by simp, rfl⟩

/-- C10: when no stored task has the given id, every id-keyed operation
reports the not-found error and the resulting client-visible state is
exactly the previous store: the task sequence and `nextId` are
untouched. -/
theorem claim_C10_notfound_leaves_state :
    ∀ (s : TodoList) (id : Nat) (newTask : String) (newDue : Option DateMs),
      (∀ t ∈ s.todos, t.id ≠ id) →
        applyOp s (Op.markCompleted id) = s
      ∧ applyOp s (Op.toggleCompleted id) = s
      ∧ applyOp s (Op.remove id) = s
      ∧ applyOp s (Op.updateDescription id newTask) = s
      ∧ applyOp s (Op.updateDueDate id newDue) = s
      ∧ s.completeTodo id = .error (notFoundMsg id)
      ∧ s.toggleTodo id = .error (notFoundMsg id)
      ∧ s.removeTodo id = .error (notFoundMsg id)
      ∧ s.updateTodoTask id newTask = .error (notFoundMsg id)
      ∧ s.updateTodoDueDate id newDue = .error (notFoundMsg id) := by
  intro s id newTask newDue habs
  have hp : ∀ t ∈ s.todos, ((fun t : TodoItem => t.id == id) t = false) := by
    intro t ht
    simpa using habs t ht
  have hu : ∀ f : TodoItem → TodoItem,
      updateFirst (fun t : TodoItem => t.id == id) f s.todos = none :=
    fun f => (updateFirst_eq_none _ f s.todos).mpr hp
  have hr : removeFirst (fun t : TodoItem => t.id == id) s.todos = none :=
    (removeFirst_eq_none _ s.todos).mpr hp
  have h1 : s.completeTodo id = .error (notFoundMsg id) := by
    simp [TodoList.completeTodo, hu]
  have h2 : s.toggleTodo id = .error (notFoundMsg id) := by
    simp [TodoList.toggleTodo, hu]
  have h3 : s.removeTodo id = .error (notFoundMsg id) := by
    simp [TodoList.removeTodo, hr]
  have h4 : s.updateTodoTask id newTask = .error (notFoundMsg id) := by
    simp [TodoList.updateTodoTask, hu]
  have h5 : s.updateTodoDueDate id newDue = .error (notFoundMsg id) := by
    simp [TodoList.updateTodoDueDate, hu]
  refine ⟨?_, ?_, ?_, ?_, ?_, h1, h2, h3, h4, h5⟩
  · simp [applyOp, h1, orKeep]
  · simp [applyOp, h2, orKeep]
  · simp [applyOp, h3, orKeep]
  · simp [applyOp, h4, orKeep]
  · simp [applyOp, h5, orKeep]

/-- Witness for C10: id 2 is absent from a one-task store; every
id-keyed operation fails with the not-found message and leaves the
state unchanged. -/
theorem claim_C10_notfound_leaves_state_witness :
      applyOp ⟨[⟨1, "a", false, none⟩], 2⟩ (Op.markCompleted 2) =
        (⟨[⟨1, "a", false, none⟩], 2⟩ : TodoList)
    ∧ applyOp ⟨[⟨1, "a", false, none⟩], 2⟩ (Op.toggleCompleted 2) =
        (⟨[⟨1, "a", false, none⟩], 2⟩ : TodoList)
    ∧ applyOp ⟨[⟨1, "a", false, none⟩], 2⟩ (Op.remove 2) =
        (⟨[⟨1, "a", false, none⟩], 2⟩ : TodoList)
    ∧ applyOp ⟨[⟨1, "a", false, none⟩], 2⟩ (Op.updateDescription 2 "x") =
        (⟨[⟨1, "a", false, none⟩], 2⟩ : TodoList)
    ∧ applyOp ⟨[⟨1, "a", false, none⟩], 2⟩ (Op.updateDueDate 2 none) =
        (⟨[⟨1, "a", false, none⟩], 2⟩ : TodoList)
    ∧ TodoList.completeTodo ⟨[⟨1, "a", false, none⟩], 2⟩ 2 =
        .error (notFoundMsg 2)
    ∧ TodoList.toggleTodo ⟨[⟨1, "a", false, none⟩], 2⟩ 2 =
        .error (notFoundMsg 2)
    ∧ TodoList.removeTodo ⟨[⟨1, "a", false, none⟩], 2⟩ 2 =
        .error (notFoundMsg 2)
    ∧ TodoList.updateTodoTask ⟨[⟨1, "a", false, none⟩], 2⟩ 2 "x" =
        .error (notFoundMsg 2)
    ∧ TodoList.updateTodoDueDate ⟨[⟨1, "a", false, none⟩], 2⟩ 2 none =
        .error (notFoundMsg 2) :=
  claim_C10_notfound_leaves_state ⟨[⟨1, "a", false, none⟩], 2⟩ 2 "x" none
    (by decide)
